import Mathlib

/-!
# Verification of the static-site build pipeline (cook)

Shallow embedding of the core transformation logic of the build system:
include-path resolution and caching (`replace-include.js`), template-string
interpolation (`replace-template-strings.js`), bundle grouping and reference
insertion (`bundle.js`), active-link annotation (`set-active-links.js`),
page-to-directory conversion (`create-dir-from-file.js`) and document
serialization (`util.js` / `setSrc`).

JS string primitives (`split`, `replace` with a string pattern, `indexOf`,
the concrete regexes used by the code) are modelled as executable functions
on `List Char`, so every concrete evaluation can be checked by `decide`/`rfl`.
-/

namespace Cook

/-! ## Character-list models of the JS string primitives -/

/-- Character-level prefix test (used to model JS substring search). -/
def isPref : List Char → List Char → Bool
  | [], _ => true
  | _ :: _, [] => false
  | a :: as, b :: bs => a == b && isPref as bs

/-- Does `pat` occur as a contiguous substring of `s`?
Models JS `s.indexOf(pat) !== -1` / `s.includes(pat)`. -/
def occursIn (pat : List Char) : List Char → Bool
  | [] => isPref pat []
  | c :: t => isPref pat (c :: t) || occursIn pat t

/-- JS `String.prototype.replace` with a *string* pattern: replaces only the
first occurrence and returns the string unchanged when the pattern does not
occur. -/
def jsReplaceFirst (pat rep : List Char) : List Char → List Char
  | [] => []
  | c :: t =>
    if isPref pat (c :: t) then rep ++ (c :: t).drop pat.length
    else c :: jsReplaceFirst pat rep t

/-- `jsReplaceFirst` on `String`s. -/
def jsReplaceFirstStr (s pat rep : String) : String :=
  String.mk (jsReplaceFirst pat.data rep.data s.data)

/-- JS `String.prototype.split` with a non-empty string separator, written with
explicit fuel so that it is structural and evaluates inside the kernel.
`acc` holds the (reversed) characters of the segment being scanned. -/
def jsSplitFuel (sep : List Char) : Nat → List Char → List Char → List (List Char)
  | _, [], acc => [acc.reverse]
  | 0, s, acc => [acc.reverse ++ s]
  | fuel + 1, c :: t, acc =>
    if isPref sep (c :: t) then acc.reverse :: jsSplitFuel sep fuel ((c :: t).drop sep.length) []
    else jsSplitFuel sep fuel t (c :: acc)

/-- JS `s.split(sep)` for a non-empty `sep`. -/
def jsSplit (s sep : String) : List String :=
  (jsSplitFuel sep.data s.data.length s.data []).map String.mk

/-! Basic sanity checks of the primitives against JS behaviour. -/

example : jsSplit "a/b" "/" = ["a", "b"] := rfl
example : jsSplit "dist/docs/x" "dist/" = ["", "docs/x"] := rfl
example : jsSplit "" "/" = [""] := rfl
example : jsSplit "ab" "ab" = ["", ""] := rfl
example : jsReplaceFirstStr "a.html.html" ".html" "/index.html" = "a/index.html.html" := rfl
example : jsReplaceFirstStr "nope" ".html" "/index.html" = "nope" := rfl
example : occursIn "ind".data "binder".data = true := rfl
example : occursIn "xyz".data "binder".data = false := rfl

/-! ## Include path resolution (`ReplaceInclude.fetchIncludeSrc`) -/

/-- The JS regex test `path.match(/.html/g)` used by `fetchIncludeSrc`: `.`
matches any character except a line terminator, so this asks for an occurrence
of `html` preceded by one (non-line-terminator) character. -/
def jsDotHtmlTest : List Char → Bool
  | [] => false
  | c :: t =>
    (decide (c ≠ '\n' ∧ c ≠ '\r' ∧ c ≠ '\u2028' ∧ c ≠ '\u2029')
      && isPref ['h', 't', 'm', 'l'] t) || jsDotHtmlTest t

/-- Path formatting performed by `ReplaceInclude.fetchIncludeSrc`
(replace-include.js lines 146-161): three sequential, mutually exclusive
reassignments of `formattedIncludePath`, each reading the original `path`. -/
def formatIncludePath (convertDisabled : Bool) (path : String) : String :=
  let hasExtension := jsDotHtmlTest path.data
  let f1 := if convertDisabled && !hasExtension then path ++ ".html" else path
  let f2 := if !convertDisabled && hasExtension then jsReplaceFirstStr path ".html" "/index.html" else f1
  let f3 := if !convertDisabled && !hasExtension then path ++ "/index.html" else f2
  f3

/-- Character-level suffix test. -/
def endsWithChars (pat : List Char) (s : List Char) : Bool :=
  isPref pat.reverse s.reverse

/-- The resolution rules exactly as the claim words them — three mutually
exclusive rules, "in every other case the path is used as-is". Written from
the claim's words for comparison against `formatIncludePath`. -/
def claimIncludeThreeRules (convertDisabled : Bool) (path : String) : String :=
  let hasExtension := jsDotHtmlTest path.data
  if !convertDisabled && hasExtension then
    (if endsWithChars ".html".data path.data
     then String.mk (path.data.take (path.data.length - 5)) else path) ++ "/index.html"
  else if convertDisabled && !hasExtension then path ++ ".html"
  else path

example : formatIncludePath true "/footer" = "/footer.html" := rfl
example : formatIncludePath true "/footer.html" = "/footer.html" := rfl
example : formatIncludePath false "/footer.html" = "/footer/index.html" := rfl
example : formatIncludePath false "/footer" = "/footer/index.html" := rfl

/-- **C2** (counterexample). With directory conversion *enabled* and a path
without an extension, the claim's third rule says the path is used as-is, but
the code appends `/index.html`: the two functions disagree at `"/footer"`. -/
theorem claimC2_counterexample :
    claimIncludeThreeRules false "/footer" = "/footer" ∧
    formatIncludePath false "/footer" = "/footer/index.html" ∧
    ("/footer/index.html" : String) ≠ "/footer" :=
  ⟨rfl, rfl, by decide⟩

/-- **C2** (amended). The Include Resolver maps a target path by *four*
mutually exclusive rules: conversion enabled + extension ⇒ replace the first
`.html` with `/index.html`; conversion enabled + no extension ⇒ append
`/index.html`; conversion disabled + no extension ⇒ append `.html`;
conversion disabled + extension ⇒ path used as-is. -/
theorem formatIncludePath_four_rules (convertDisabled : Bool) (path : String) :
    formatIncludePath convertDisabled path =
      (if convertDisabled then
        (if jsDotHtmlTest path.data then path else path ++ ".html")
       else
        (if jsDotHtmlTest path.data then jsReplaceFirstStr path ".html" "/index.html"
         else path ++ "/index.html")) := by
  unfold formatIncludePath
  cases convertDisabled <;> cases h : jsDotHtmlTest path.data <;> simp [h]

/-! ## Template interpolation (`ReplaceTemplateStrings.replaceTemplateVars`)

The source applies `str.replace(/\${[^{](.*?)}/g, (match,g,offset,src) =>
obj[src[offset+2] + g] || match)`. The regex matches `${`, one character that
is not `{`, then lazily up to the first `}`; `src[offset+2]` restores the
character swallowed by `[^{]`, so the lookup key is that character followed by
the capture group. `|| match` keeps the matched text whenever the looked-up
value is falsy — including when the key maps to the empty string. -/

/-- Scanner for the lazy tail `(.*?)}` of the template regex: characters up to
the first `}` and the remainder after it. Fails at a line terminator (regex
`.` does not match one) or at end of input, in which case the whole match at
this position fails. -/
def scanBody : List Char → Option (List Char × List Char)
  | [] => none
  | c :: t =>
    if c = '}' then some ([], t)
    else if c = '\n' ∨ c = '\r' ∨ c = '\u2028' ∨ c = '\u2029' then none
    else match scanBody t with
      | some (inner, rest) => some (c :: inner, rest)
      | none => none

/-- Replacement text for one match `${c·inner}`: the JS callback returns
`obj[src[offset+2] + g] || match`, i.e. the looked-up value when it is truthy
(a non-empty string) and the matched text itself otherwise. -/
def templateRep (data : String → Option String) (c : Char) (inner : List Char) : List Char :=
  let matched := '$' :: '{' :: c :: (inner ++ ['}'])
  match data (String.mk (c :: inner)) with
  | some v => if v = "" then matched else v.data
  | none => matched

/-- The left-to-right global-regex scan of `.replace(/\${[^{](.*?)}/g, ...)`,
with one unit of fuel per character position so the recursion is structural.
On a failed match the scanner advances one character; after a successful match
it resumes after the closing `}`, exactly like the JS engine. -/
def rtvFuel (data : String → Option String) : Nat → List Char → List Char
  | 0, s => s
  | _ + 1, [] => []
  | fuel + 1, c0 :: rest =>
    match rest with
    | c1 :: c2 :: rest2 =>
      if c0 = '$' ∧ c1 = '{' ∧ c2 ≠ '{' then
        match scanBody rest2 with
        | some (inner, rest3) => templateRep data c2 inner ++ rtvFuel data fuel rest3
        | none => c0 :: rtvFuel data fuel rest
      else c0 :: rtvFuel data fuel rest
    | _ => c0 :: rtvFuel data fuel rest

/-- `ReplaceTemplateStrings.replaceTemplateVars(str, obj)`: interpolate every
`${identifier}` template placeholder in `str` from the data object `obj`
(modelled as a partial map from keys to string values). -/
def replaceTemplateVars (str : String) (data : String → Option String) : String :=
  String.mk (rtvFuel data str.data.length str.data)

example :
    replaceTemplateVars "Hello $\x7bname\x7d" (fun k => if k = "name" then some "Ada" else none)
      = "Hello Ada" := rfl
example :
    replaceTemplateVars "$\x7b\x7bcount\x7d\x7d" (fun k => if k = "count" then some "3" else none)
      = "$\x7b\x7bcount\x7d\x7d" := rfl

/-- `scanBody` splits a body with no early `}` and no line terminator at the
closing brace. -/
theorem scanBody_append (inner tail : List Char)
    (h : ∀ x ∈ inner, x ≠ '}' ∧ x ≠ '\n' ∧ x ≠ '\r' ∧ x ≠ '\u2028' ∧ x ≠ '\u2029') :
    scanBody (inner ++ '}' :: tail) = some (inner, tail) := by
  induction inner with
  | nil => simp [scanBody]
  | cons c t ih =>
    have hc := h c (List.mem_cons_self c t)
    have ht : ∀ x ∈ t, x ≠ '}' ∧ x ≠ '\n' ∧ x ≠ '\r' ∧ x ≠ '\u2028' ∧ x ≠ '\u2029' :=
      fun x hx => h x (List.mem_cons_of_mem _ hx)
    simp [scanBody, hc.1, hc.2.1, hc.2.2.1, hc.2.2.2.1, hc.2.2.2.2, ih ht]

/-- **C3** (counterexample). With `data = {name: ""}` the key *is* present in
the data object, yet `obj[key] || match` treats the empty string as falsy and
leaves the placeholder text in place, where the claim requires the stringified
value (the empty string) to be substituted. -/
theorem claimC3_counterexample :
    (fun k => if k = "name" then some "" else none : String → Option String) "name"
      = some "" ∧
    replaceTemplateVars "$\x7bname\x7d" (fun k => if k = "name" then some "" else none)
      = "$\x7bname\x7d" ∧
    ("$\x7bname\x7d" : String) ≠ "" :=
  ⟨rfl, rfl, by decide⟩

/-- **C3** (amended). A placeholder `${identifier}` (first inner character not
`{`, body free of `}` and line terminators) is replaced by the value of
`data[identifier]` when that value is present *and truthy* (non-empty); when
the key is absent, or maps to a falsy (empty) value, the placeholder text is
left unchanged. A double-curly placeholder `${{...}}` is never matched or
altered, and `"Hello ${name}"` with `{name: "Ada"}` yields `"Hello Ada"`. -/
theorem replaceTemplateVars_amended :
    (∀ (data : String → Option String) (c : Char) (inner : List Char),
      c ≠ '{' →
      (∀ x ∈ inner, x ≠ '}' ∧ x ≠ '\n' ∧ x ≠ '\r' ∧ x ≠ '\u2028' ∧ x ≠ '\u2029') →
      replaceTemplateVars (String.mk ('$' :: '{' :: c :: (inner ++ ['}']))) data =
        (match data (String.mk (c :: inner)) with
         | some v => if v = "" then String.mk ('$' :: '{' :: c :: (inner ++ ['}'])) else v
         | none => String.mk ('$' :: '{' :: c :: (inner ++ ['}'])))) ∧
    (∀ data, replaceTemplateVars "$\x7b\x7bcount\x7d\x7d" data = "$\x7b\x7bcount\x7d\x7d") ∧
    (replaceTemplateVars "Hello $\x7bname\x7d"
      (fun k => if k = "name" then some "Ada" else none) = "Hello Ada") := by
  refine ⟨?_, fun _ => rfl, rfl⟩
  intro data c inner hc h
  have hnil : ∀ fuel, rtvFuel data fuel [] = [] := by
    intro fuel; cases fuel <;> rfl
  have key : ∀ fuel, rtvFuel data (fuel + 1) ('$' :: '{' :: c :: (inner ++ ['}']))
      = templateRep data c inner := by
    intro fuel
    simp [rtvFuel, hc, scanBody_append inner [] h, hnil]
  have lhs : replaceTemplateVars (String.mk ('$' :: '{' :: c :: (inner ++ ['}']))) data
      = String.mk (templateRep data c inner) :=
    congrArg String.mk (key (('{' :: c :: (inner ++ ['}'])).length))
  rw [lhs]
  unfold templateRep
  cases hd : data (String.mk (c :: inner)) with
  | none => simp [hd]
  | some v => by_cases hv : v = "" <;> simp [hd, hv]

/-- Witness for `replaceTemplateVars_amended` at `"${name}"`, `{name: "Ada"}`. -/
theorem replaceTemplateVars_amended_witness :
    (('n' : Char) ≠ '{') ∧
    replaceTemplateVars "$\x7bname\x7d" (fun k => if k = "name" then some "Ada" else none)
      = "Ada" := by
  refine ⟨by decide, ?_⟩
  have h := replaceTemplateVars_amended.1 (fun k => if k = "name" then some "Ada" else none)
    'n' "ame".data (by decide) (by decide)
  exact h

/-! ## Include caching (`ReplaceInclude.replaceInclude` / `fetchIncludeSrc`) -/

/-- JS property lookup `store.cachedIncludes[path]`: `none` models `undefined`
(key absent); values are the cached file contents. The cache is an association
list in insertion order. -/
def lookupCache : List (String × String) → String → Option String
  | [], _ => none
  | (k, v) :: t, p => if k = p then some v else lookupCache t p

/-- One include resolution (replace-include.js lines 108-118 and 163-174).
The miss test in the source is `[undefined, null].indexOf(cachedTarget) === -1`,
so any cached string — the empty string included — is a hit. On a miss the
file at the *formatted* path is read (`fs.readFile`, modelled by `disk`), the
content is cached under the unformatted resolved path, and one disk read is
counted. Returns (content, updated cache, number of disk reads performed). -/
def replaceIncludeLookup (convertDisabled : Bool) (disk : String → String)
    (cache : List (String × String)) (p : String) :
    String × List (String × String) × Nat :=
  match lookupCache cache p with
  | some v => (v, cache, 0)
  | none =>
    let content := disk (formatIncludePath convertDisabled p)
    (content, cache ++ [(p, content)], 1)

/-- The cache state after resolving a sequence of include paths in order. -/
def runIncludes (convertDisabled : Bool) (disk : String → String)
    (cache : List (String × String)) : List String → List (String × String)
  | [] => cache
  | p :: ps =>
    runIncludes convertDisabled disk
      (replaceIncludeLookup convertDisabled disk cache p).2.1 ps

/-- A present cache entry is still found after appending entries. -/
theorem lookupCache_append_some {cache : List (String × String)} {p v : String}
    (h : lookupCache cache p = some v) (d : List (String × String)) :
    lookupCache (cache ++ d) p = some v := by
  induction cache with
  | nil => simp [lookupCache] at h
  | cons kv t ih =>
    obtain ⟨k, w⟩ := kv
    by_cases hk : k = p
    · simpa [lookupCache, hk] using h
    · simp only [lookupCache, List.cons_append, if_neg hk] at h ⊢
      exact ih h

/-- Appending a fresh entry for an absent key makes it found. -/
theorem lookupCache_append_miss {cache : List (String × String)} {p : String}
    (h : lookupCache cache p = none) (v : String) :
    lookupCache (cache ++ [(p, v)]) p = some v := by
  induction cache with
  | nil => simp [lookupCache]
  | cons kv t ih =>
    obtain ⟨k, w⟩ := kv
    by_cases hk : k = p
    · simp [lookupCache, hk] at h
    · simp only [lookupCache, List.cons_append, if_neg hk] at h ⊢
      exact ih h

/-- Write-once helper: a present cache entry survives any further sequence of
include resolutions with its original value. -/
theorem lookupCache_run_preserved (convertDisabled : Bool) (disk : String → String)
    {cache : List (String × String)} {p v : String} (ps : List String)
    (h : lookupCache cache p = some v) :
    lookupCache (runIncludes convertDisabled disk cache ps) p = some v := by
  induction ps generalizing cache with
  | nil => simpa [runIncludes] using h
  | cons q qs ih =>
    simp only [runIncludes]
    apply ih
    cases hq : lookupCache cache q with
    | some w => simpa [replaceIncludeLookup, hq] using h
    | none => simpa [replaceIncludeLookup, hq] using lookupCache_append_some h _

/-- After resolving `p`, the cache maps `p` to the returned content. -/
theorem lookupCache_after_step (convertDisabled : Bool) (disk : String → String)
    (cache : List (String × String)) (p : String) :
    lookupCache (replaceIncludeLookup convertDisabled disk cache p).2.1 p
      = some (replaceIncludeLookup convertDisabled disk cache p).1 := by
  cases hq : lookupCache cache p with
  | some w => simp [replaceIncludeLookup, hq]
  | none => simp [replaceIncludeLookup, hq, lookupCache_append_miss hq]

/-- **C5**. (1) Any later resolution of an include path already resolved once
in the run — with arbitrary other resolutions in between — returns the content
cached by the first resolution, leaves the cache unchanged and performs no
disk read. (2) Cache entries are write-once: once a path maps to a value, any
further sequence of resolutions leaves that entry intact. -/
theorem replaceInclude_cache_coherent :
    (∀ (convertDisabled : Bool) (disk : String → String)
        (cache : List (String × String)) (p : String) (ps : List String),
      replaceIncludeLookup convertDisabled disk
          (runIncludes convertDisabled disk
            (replaceIncludeLookup convertDisabled disk cache p).2.1 ps) p
        = ((replaceIncludeLookup convertDisabled disk cache p).1,
           runIncludes convertDisabled disk
             (replaceIncludeLookup convertDisabled disk cache p).2.1 ps, 0)) ∧
    (∀ (convertDisabled : Bool) (disk : String → String)
        (cache : List (String × String)) (p v : String) (ps : List String),
      lookupCache cache p = some v →
      lookupCache (runIncludes convertDisabled disk cache ps) p = some v) := by
  constructor
  · intro cd disk cache p ps
    have h := lookupCache_run_preserved cd disk ps
      (lookupCache_after_step cd disk cache p)
    set st := replaceIncludeLookup cd disk cache p with hst
    simp [replaceIncludeLookup, h]
  · intro cd disk cache p v ps h
    exact lookupCache_run_preserved cd disk ps h

/-- Witness for `replaceInclude_cache_coherent` (write-once conjunct) at a
concrete run. -/
theorem replaceInclude_cache_coherent_witness :
    lookupCache [("/inc/a.html", "AAA")] "/inc/a.html" = some "AAA" ∧
    lookupCache (runIncludes false (fun _ => "DISK") [("/inc/a.html", "AAA")]
      ["/inc/b.html", "/inc/a.html"]) "/inc/a.html" = some "AAA" :=
  ⟨rfl, replaceInclude_cache_coherent.2 false (fun _ => "DISK") _ _ _ _ rfl⟩

/-- **C10**. An include whose cached content is the empty string is still a
cache hit: the miss test counts only `undefined`/`null` as a miss, not every
falsy value, so the resolution returns the cached empty string, leaves the
cache unchanged and performs no disk read. -/
theorem replaceInclude_empty_string_hit
    (convertDisabled : Bool) (disk : String → String)
    (cache : List (String × String)) (p : String)
    (h : lookupCache cache p = some "") :
    replaceIncludeLookup convertDisabled disk cache p = ("", cache, 0) := by
  simp [replaceIncludeLookup, h]

/-- Witness for `replaceInclude_empty_string_hit`. -/
theorem replaceInclude_empty_string_hit_witness :
    lookupCache [("/includes/empty.html", "")] "/includes/empty.html" = some "" ∧
    replaceIncludeLookup false (fun _ => "DISK") [("/includes/empty.html", "")]
      "/includes/empty.html" = ("", [("/includes/empty.html", "")], 0) :=
  ⟨rfl, replaceInclude_empty_string_hit false (fun _ => "DISK") _ _ rfl⟩

/-! ## Bundle engine (`Bundle.groupSrcAndInsertBundle`) -/

/-- `Bundle.getGroup` formatting: `raw.replace(/ /g, '-').toLowerCase()`. -/
def getGroupFormatted (raw : String) : String :=
  String.mk ((raw.data.map (fun c => if c = ' ' then '-' else c)).map Char.toLower)

/-- A node of a page, as seen by the bundle add phase: a `<link>`/`<script>`
bundle marker element (raw `[bundle]`/`[data-bundle]` attribute value,
`href`/`src` path, and whether its source may be re-minified), any other
content, or an inserted bundle reference element (`<link rel="stylesheet"
href="/.../bundle-<group>.css">` / `<script src="/.../bundle-<group>.js">`)
carrying its formatted group name. -/
inductive BNode where
  | marker (raw : String) (path : String) (minify : Bool)
  | other (s : String)
  | bundleRef (group : String)
  deriving DecidableEq

/-- The raw group values of the page's marker elements, in document order
(the static `querySelectorAll` snapshot the second pass filters over). -/
def bundleMarkerRaws : List BNode → List String
  | [] => []
  | .marker r _ _ :: t => r :: bundleMarkerRaws t
  | _ :: t => bundleMarkerRaws t

/-- Second pass of `groupSrcAndInsertBundle`, walking the page in document
order. `processed` holds the raw values of markers already visited, so
`processed.countP` by *formatted* group is the `group-index` attribute the
first pass assigned; `allRaws` holds the raw values of all markers on the
page. A marker has the bundle reference inserted immediately before it exactly
when its per-formatted-group index equals `groupLen - 1`, where `groupLen`
counts the page's markers whose *raw* attribute value equals this marker's
raw value; every marker itself is removed. -/
def bundleAddWalk (processed allRaws : List String) : List BNode → List BNode
  | [] => []
  | .marker r _ _ :: rest =>
    let groupIndex := processed.countP (fun r2 => getGroupFormatted r2 == getGroupFormatted r)
    let groupLen := allRaws.countP (fun r2 => r2 == r)
    let tail := bundleAddWalk (processed ++ [r]) allRaws rest
    if groupIndex == groupLen - 1 then .bundleRef (getGroupFormatted r) :: tail else tail
  | n :: rest => n :: bundleAddWalk processed allRaws rest

/-- The document rewrite performed by `Bundle.groupSrcAndInsertBundle` for one
asset kind (bundle.js lines 153-205). -/
def bundleAddPage (page : List BNode) : List BNode :=
  bundleAddWalk [] (bundleMarkerRaws page) page

/-- One store update of the first pass (bundle.js lines 161-181): append
`{path, minify}` to the group's array unless the path is already present
(`pathsMap.indexOf(path) === -1`); the group array is created on first use.
The store is one asset kind's map `store.bundle.css` / `store.bundle.js`,
as an association list in property-insertion order. -/
def addEntry (group path : String) (minify : Bool) :
    List (String × List (String × Bool)) → List (String × List (String × Bool))
  | [] => [(group, [(path, minify)])]
  | (g, es) :: t =>
    if g = group then
      (if es.any (fun e => e.1 == path) then (g, es)
       else (g, es ++ [(path, minify)])) :: t
    else (g, es) :: addEntry group path minify t

/-- First-pass store accumulation over one page's markers, in document order. -/
def bundleAddStore (store : List (String × List (String × Bool))) :
    List BNode → List (String × List (String × Bool))
  | [] => store
  | .marker r p m :: rest => bundleAddStore (addEntry (getGroupFormatted r) p m store) rest
  | _ :: rest => bundleAddStore store rest

/-- Store state after the add phase has processed a sequence of pages. -/
def bundleAddRun (store : List (String × List (String × Bool))) :
    List (List BNode) → List (String × List (String × Bool))
  | [] => store
  | pg :: pgs => bundleAddRun (bundleAddStore store pg) pgs

/-- Invariant: every bundle group's source-path list is duplicate-free. -/
def StoreNodup (store : List (String × List (String × Bool))) : Prop :=
  ∀ gp ∈ store, (gp.2.map Prod.fst).Nodup

/-- `addEntry` preserves per-group duplicate-freedom. -/
theorem addEntry_storeNodup {store : List (String × List (String × Bool))}
    (h : StoreNodup store) (group path : String) (minify : Bool) :
    StoreNodup (addEntry group path minify store) := by
  induction store with
  | nil =>
    intro gp hgp
    simp only [addEntry, List.mem_singleton] at hgp
    subst hgp
    simp
  | cons ge t ih =>
    obtain ⟨g, es⟩ := ge
    have hes : (es.map Prod.fst).Nodup := h (g, es) (List.mem_cons_self _ _)
    have ht : StoreNodup t := fun gp hgp => h gp (List.mem_cons_of_mem _ hgp)
    intro gp hgp
    by_cases hg : g = group
    · simp only [addEntry, if_pos hg] at hgp
      rcases List.mem_cons.mp hgp with hhd | htl
      · by_cases hany : es.any (fun e => e.1 == path)
        · subst hhd; simpa [hany] using hes
        · subst hhd
          simp only [hany, if_false, Bool.false_eq_true]
          have hnp : path ∉ es.map Prod.fst := by
            intro hmem
            rcases List.mem_map.mp hmem with ⟨e, he, hfst⟩
            exact hany (List.any_eq_true.mpr ⟨e, he, by simp [hfst]⟩)
          have hres : (es.map Prod.fst ++ [path]).Nodup := by
            simp [List.nodup_append, hes, hnp]
          simpa using hres
      · exact ht gp htl
    · simp only [addEntry, if_neg hg] at hgp
      rcases List.mem_cons.mp hgp with hhd | htl
      · subst hhd; exact hes
      · exact ih ht gp htl

/-- `bundleAddStore` preserves per-group duplicate-freedom. -/
theorem bundleAddStore_storeNodup {store : List (String × List (String × Bool))}
    (h : StoreNodup store) (page : List BNode) :
    StoreNodup (bundleAddStore store page) := by
  induction page generalizing store with
  | nil => simpa [bundleAddStore] using h
  | cons n rest ih =>
    cases n with
    | marker r p m => exact ih (addEntry_storeNodup h _ _ _)
    | other s => exact ih h
    | bundleRef g => exact ih h

/-- **C4**. Per asset kind, starting from the empty store of a build run:
(1) after the add phase has processed any sequence of pages, every bundle
group's source-path list is duplicate-free — a `(kind, group, sourcePath)`
triple appears at most once; (2) re-adding the same source path to the same
group (e.g. from a second page) is absorbed and does not change the store. -/
theorem bundleStore_dedup :
    (∀ (pages : List (List BNode))
        (gp : String × List (String × Bool)), gp ∈ bundleAddRun [] pages →
      (gp.2.map Prod.fst).Nodup) ∧
    (∀ (store : List (String × List (String × Bool))) (g p : String) (m₁ m₂ : Bool),
      addEntry g p m₂ (addEntry g p m₁ store) = addEntry g p m₁ store) := by
  constructor
  · have run : ∀ (pages : List (List BNode)) (store : List (String × List (String × Bool))),
        StoreNodup store → StoreNodup (bundleAddRun store pages) := by
      intro pages
      induction pages with
      | nil => intro store h; simpa [bundleAddRun] using h
      | cons pg pgs ih =>
        intro store h
        exact ih _ (bundleAddStore_storeNodup h pg)
    intro pages gp hgp
    exact run pages [] (by intro gp hgp; simp at hgp) gp hgp
  · intro store g p m₁ m₂
    induction store with
    | nil => simp [addEntry]
    | cons ge t ih =>
      obtain ⟨g', es⟩ := ge
      by_cases hg : g' = g
      · by_cases hany : es.any (fun e => e.1 == p)
        · simp [addEntry, hg, hany]
        · simp [addEntry, hg, hany]
      · simp [addEntry, hg, ih]

/-- Two pages that both reference the same `group="vendor"` script path. -/
def vendorPages : List (List BNode) :=
  [[BNode.marker "vendor" "/js/vendor.js" true],
   [BNode.marker "vendor" "/js/vendor.js" true]]

/-- Witness for `bundleStore_dedup`: the two `vendorPages` leave exactly one
`{path, minify}` entry in the `vendor` group. -/
theorem bundleStore_dedup_witness :
    (("vendor", [("/js/vendor.js", true)]) : String × List (String × Bool)) ∈
      bundleAddRun [] vendorPages ∧
    ((("vendor", [("/js/vendor.js", true)]) :
        String × List (String × Bool)).2.map Prod.fst).Nodup :=
  ⟨by decide, bundleStore_dedup.1 vendorPages _ (by decide)⟩

/-- A page with three script markers that all belong to the same (formatted)
bundle group but use different raw spellings: `bundle="a-b"`, some other
content, then `bundle="A b"` twice. -/
def bundleBugPage : List BNode :=
  [.marker "a-b" "/js/a.js" true,
   .other "<main></main>",
   .marker "A b" "/js/b.js" true,
   .marker "A b" "/js/c.js" true]

/-- **C1** (bug evaluation). On `bundleBugPage`, whose three markers all
format to group `a-b`, the add phase inserts *two* `bundle-a-b` reference
elements — at the former positions of the first and second markers — and none
immediately before the position of the last same-group marker: the second
pass compares the per-formatted-group `group-index` with a count keyed by the
*raw* attribute value, so the guarantee of claim C1 fails whenever the same
group is spelled differently on one page. -/
theorem bundleAdd_two_refs_bug :
    (bundleMarkerRaws bundleBugPage).map getGroupFormatted = ["a-b", "a-b", "a-b"] ∧
    bundleAddPage bundleBugPage =
      [.bundleRef "a-b", .other "<main></main>", .bundleRef "a-b"] :=
  ⟨rfl, rfl⟩

/-! ## Active-link annotation (`SetActiveLinks` / `Util.getFileName`) -/

/-- `Util.getFileName(path, distPath)` (util.js lines 351-359): the last
non-empty `/`-segment of the path up to its first `.`; a name of `index`
collapses to the parent segment; a name equal to the dist root collapses to
`/`. A JS `undefined` (out-of-range index) is modelled as `""`. -/
def getFileName (path distPath : String) : String :=
  let splitOnSlash := (jsSplit path "/").filter (fun s => s ≠ "")
  let lastPart := splitOnSlash.getLastD ""
  let fileName := (jsSplit lastPart ".").headD ""
  let fileName :=
    if fileName = "index" then
      (if splitOnSlash.length ≥ 2 then splitOnSlash.getD (splitOnSlash.length - 2) "" else "")
    else fileName
  if fileName = distPath then "/" else fileName

/-- `SetActiveLinks.linkIsParent(pagePath, linkPath)` (part_002 lines
126-136): true when the link's derived name is one of the page path's
directory segments below the dist root (`pagePathParts` after `pop()`) *and*
is not the last of those segments. The early `return` on a missing or empty
split result (both falsy in JS) is modelled as `false`. -/
def linkIsParent (distPath pagePath linkPath : String) : Bool :=
  if (jsSplit pagePath (distPath ++ "/")).getD 1 "" = "" then false
  else
    let parts := (jsSplit ((jsSplit pagePath (distPath ++ "/")).getD 1 "") "/").dropLast
    decide (linkPath ≠ parts.getLastD "") && decide (linkPath ∈ parts)

/-- The three outcomes for an anchor: `active` / `active-parent` mutation, or
no mutation at all. -/
inductive LinkState where
  | active
  | activeParent
  | inactive
  deriving DecidableEq

/-- `SetActiveLinks.setActive({file, link})` (part_002 lines 80-86): `active`
when the link's derived name equals the current page's derived name, else
`active-parent` when `linkIsParent`, else the anchor is left unmodified. -/
def setActive (distPath pagePath href : String) : LinkState :=
  let currPath := getFileName pagePath distPath
  let linkPath := getFileName href distPath
  let isParent := linkIsParent distPath pagePath linkPath
  if linkPath = currPath then .active
  else if isParent then .activeParent
  else .inactive

example :
    setActive "dist" "dist/docs/guide/install/index.html"
      "https://localhost/docs/guide/install" = .active := rfl
example :
    setActive "dist" "dist/docs/guide/install/index.html"
      "https://localhost/docs/guide" = .activeParent := rfl
example :
    setActive "dist" "dist/docs/guide/install/index.html"
      "https://localhost/docs/other" = .inactive := rfl

/-- **C6**. For a directory-converted current page
`distPath/d₁/…/dₙ/index.html` (derived name: the terminal directory segment
`dₙ`), an anchor is marked `active` exactly when its target's derived name
equals the current page's derived name, marked `active-parent` exactly when
its target's derived name differs from the current name and is one of the
strict, non-terminal ancestor segments `d₁…dₙ₋₁`, and is otherwise left
unmodified. -/
theorem setActive_classification
    (distPath pagePath href : String) (dirs : List String) (hne : dirs ≠ [])
    (hsplit : (jsSplit pagePath (distPath ++ "/")).getD 1 "" ≠ "")
    (hparts : jsSplit ((jsSplit pagePath (distPath ++ "/")).getD 1 "") "/"
        = dirs ++ ["index.html"])
    (hcurr : getFileName pagePath distPath = dirs.getLast hne) :
    (setActive distPath pagePath href = .active ↔
      getFileName href distPath = dirs.getLast hne) ∧
    (setActive distPath pagePath href = .activeParent ↔
      getFileName href distPath ≠ dirs.getLast hne ∧
      getFileName href distPath ∈ dirs.dropLast) := by
  have hlastD : dirs.getLastD "" = dirs.getLast hne := by
    rw [List.getLastD_eq_getLast?, List.getLast?_eq_getLast _ hne, Option.getD_some]
  have hparent : ∀ lp : String, linkIsParent distPath pagePath lp
      = (decide (lp ≠ dirs.getLast hne) && decide (lp ∈ dirs)) := by
    intro lp
    unfold linkIsParent
    rw [if_neg hsplit, hparts, List.dropLast_concat]
    simp only [hlastD]
  have hsplitdirs : dirs.dropLast ++ [dirs.getLast hne] = dirs :=
    List.dropLast_append_getLast hne
  by_cases hLC : getFileName href distPath = dirs.getLast hne
  · constructor
    · simp [setActive, hcurr, hLC]
    · simp [setActive, hcurr, hLC]
  · have hval : setActive distPath pagePath href
        = (if getFileName href distPath ∈ dirs then LinkState.activeParent
           else LinkState.inactive) := by
      simp only [setActive, hcurr, hparent]
      rw [if_neg hLC]
      by_cases hmem : getFileName href distPath ∈ dirs <;> simp [hLC, hmem]
    by_cases hmem : getFileName href distPath ∈ dirs
    · have hdl : getFileName href distPath ∈ dirs.dropLast := by
        rw [← hsplitdirs] at hmem
        rcases List.mem_append.mp hmem with h | h
        · exact h
        · exact absurd (List.mem_singleton.mp h) hLC
      rw [hval, if_pos hmem]
      exact ⟨by simp [hLC], by simp [hLC, hdl]⟩
    · have hnd : getFileName href distPath ∉ dirs.dropLast := by
        intro h
        exact hmem (List.dropLast_subset _ h)
      rw [hval, if_neg hmem]
      exact ⟨by simp [hLC], by simp [hnd]⟩

/-- Witness for `setActive_classification`: current page
`/docs/guide/install`, link to `/docs/guide` is `active-parent`. -/
theorem setActive_classification_witness :
    (jsSplit "dist/docs/guide/install/index.html" "dist/").getD 1 "" ≠ "" ∧
    setActive "dist" "dist/docs/guide/install/index.html"
      "https://localhost/docs/guide" = .activeParent :=
  ⟨by decide,
    (setActive_classification "dist" "dist/docs/guide/install/index.html"
      "https://localhost/docs/guide" ["docs", "guide", "install"] (by decide)
      (by decide) (by decide) (by decide)).2.mpr ⟨by decide, by decide⟩⟩

/-! ## Page-to-directory conversion (`CreateDirFromFile.createDirectory`) -/

/-- The `name` component of `Util.getFileParts(path)` (util.js lines 367-376):
the last `/`-segment of the path up to its first `.`. -/
def getFilePartsName (path : String) : String :=
  (jsSplit ((jsSplit path "/").getLastD "") ".").headD ""

/-- The `ext` component of `Util.getFileParts(path)`: index 1 of the
`.`-split of the last `/`-segment (`none` models JS `undefined`). -/
def getFilePartsExt (path : String) : Option String :=
  (jsSplit ((jsSplit path "/").getLastD "") ".").get? 1

/-- `Util.isAllowedType({file, allowType, disallowType})` (util.js lines
481-494): a missing or empty extension refuses; the extension is
dot-normalized and then checked against the opt-in list (when present) and
the opt-out list (when present). -/
def isAllowedType (ext : Option String) (allowType disallowType : Option (List String)) : Bool :=
  match ext with
  | none => false
  | some e =>
    if e = "" then false
    else
      let e2 := match e.data with
        | '.' :: _ => e
        | _ => "." ++ e
      match allowType, disallowType with
      | some l, some d => l.contains e2 && !(d.contains e2)
      | some l, none => l.contains e2
      | none, some d => !(d.contains e2)
      | none, none => true

/-- `files[files.indexOf(fileName)] = f(...)`: rewrite the first occurrence of
`fileName` in the pending-files array (when absent, JS assigns to index `-1`,
which leaves the array's elements unchanged). -/
def updateFirstEntry (files : List String) (fileName : String) (f : String → String) : List String :=
  match files with
  | [] => []
  | x :: t => if x = fileName then f x :: t else x :: updateFirstEntry t fileName f

/-- `CreateDirFromFile.createDirectory` (create-dir-from-file.js lines
98-136) for a static page path: `none` when the file is skipped (disallowed
type, an `index` page, or an excluded path), otherwise
`some (renameFrom, renameTo, updatedFiles)`: the page is renamed from
`filePath + ".html"` to `filePath + "/index.html"` where `filePath` is the
path up to its first `.`, and the pending-files entry for the old path is
rewritten by `replace('.html', '/index.html')` followed by
`replace('index/index.html', 'index.html')`. -/
def createDirectory (allowType disallowType : Option (List String))
    (excludePaths configExcludePaths : List String)
    (fileName : String) (files : List String) :
    Option (String × String × List String) :=
  if !(isAllowedType (getFilePartsExt fileName) allowType disallowType) then none
  else if getFilePartsName fileName = "index" then none
  else if (excludePaths ++ configExcludePaths).any
      (fun s => occursIn s.data fileName.data) then none
  else
    let filePath := (jsSplit fileName ".").headD ""
    some (filePath ++ ".html", filePath ++ "/index.html",
      updateFirstEntry files fileName
        (fun f => jsReplaceFirstStr (jsReplaceFirstStr f ".html" "/index.html")
          "index/index.html" "index.html"))

example :
    createDirectory (some [".html"]) none [] [] "dist/about.html" ["dist/about.html"]
      = some ("dist/about.html", "dist/about/index.html", ["dist/about/index.html"]) := rfl
example :
    createDirectory (some [".html"]) none [] [] "dist/docs/index.html" ["dist/docs/index.html"]
      = none := rfl

/-- **C8** (counterexample). The accepted page `dist/myindex.html` *is* moved
on disk to `dist/myindex/index.html`, but its pending-files entry is **not**
rewritten to the new path: the second string replacement finds
`index/index.html` inside `myindex/index.html` and collapses the entry back
to the old path `dist/myindex.html`. -/
theorem claimC8_counterexample :
    createDirectory (some [".html"]) none [] [] "dist/myindex.html" ["dist/myindex.html"]
      = some ("dist/myindex.html", "dist/myindex/index.html", ["dist/myindex.html"]) ∧
    ("dist/myindex.html" : String) ≠ "dist/myindex/index.html" :=
  ⟨rfl, by decide⟩

/-- A list prefix is a prefix of itself extended by anything. -/
theorem isPref_append_self (l m : List Char) : isPref l (l ++ m) = true := by
  induction l with
  | nil => rfl
  | cons c t ih => simp [isPref, ih]

/-- `jsReplaceFirst` is the identity when the pattern does not occur. -/
theorem jsReplaceFirst_of_not_occurs {pat s : List Char} (rep : List Char)
    (h : occursIn pat s = false) : jsReplaceFirst pat rep s = s := by
  induction s with
  | nil => rfl
  | cons c t ih =>
    simp only [occursIn, Bool.or_eq_false_iff] at h
    simp only [jsReplaceFirst, h.1, Bool.false_eq_true, if_false]
    rw [ih h.2]

/-- Replacing a pattern that first occurs right after a prefix free of the
pattern's first character replaces exactly that occurrence. -/
theorem jsReplaceFirst_boundary {p0 : Char} {pt : List Char} (rep : List Char) :
    ∀ (a b : List Char), (∀ c ∈ a, c ≠ p0) →
      jsReplaceFirst (p0 :: pt) rep (a ++ ((p0 :: pt) ++ b)) = a ++ (rep ++ b) := by
  intro a
  induction a with
  | nil =>
    intro b _
    have hpref := isPref_append_self (p0 :: pt) b
    rw [List.cons_append] at hpref
    simp only [List.nil_append, List.cons_append, jsReplaceFirst, List.append_eq]
    rw [if_pos hpref]
    congr 1
    have hdrop := List.drop_left (p0 :: pt) b
    rw [List.cons_append] at hdrop
    exact hdrop
  | cons x a' ih =>
    intro b ha
    have hx : x ≠ p0 := ha x (List.mem_cons_self _ _)
    have hbe : (p0 == x) = false := beq_eq_false_iff_ne.mpr (Ne.symm hx)
    have ha' : ∀ c ∈ a', c ≠ p0 := fun c hc => ha c (List.mem_cons_of_mem _ hc)
    have ih' := ih b ha'
    rw [List.cons_append] at ih'
    simp only [List.cons_append, jsReplaceFirst, isPref, hbe, Bool.false_and,
      Bool.false_eq_true, if_false, List.append_eq]
    rw [ih']

/-- `jsSplitFuel` always produces at least one segment. -/
theorem jsSplitFuel_ne_nil (sep : List Char) :
    ∀ (fuel : Nat) (l acc : List Char), jsSplitFuel sep fuel l acc ≠ [] := by
  intro fuel
  induction fuel with
  | zero => intro l acc; cases l <;> simp [jsSplitFuel]
  | succ f ih =>
    intro l acc
    cases l with
    | nil => simp [jsSplitFuel]
    | cons c t =>
      simp only [jsSplitFuel]
      by_cases hp : isPref sep (c :: t)
      · simp [hp]
      · simp only [hp, Bool.false_eq_true, if_false]
        exact ih t (c :: acc)

/-- The first segment of a single-character split whose separator first occurs
right after `stem` is `stem` itself (prepended with the pending accumulator). -/
theorem jsSplitFuel_head {c : Char} (stem : List Char) :
    ∀ (fuel : Nat) (acc rest : List Char),
      (∀ x ∈ stem, x ≠ c) → stem.length + 1 ≤ fuel →
      (jsSplitFuel [c] fuel (stem ++ c :: rest) acc).headD [] = acc.reverse ++ stem := by
  induction stem with
  | nil =>
    intro fuel acc rest _ hfuel
    cases fuel with
    | zero => simp at hfuel
    | succ f => simp [jsSplitFuel, isPref]
  | cons x st ih =>
    intro fuel acc rest hstem hfuel
    cases fuel with
    | zero => simp at hfuel
    | succ f =>
      have hx : x ≠ c := hstem x (List.mem_cons_self _ _)
      have hbe : (c == x) = false := beq_eq_false_iff_ne.mpr (Ne.symm hx)
      have hst : ∀ y ∈ st, y ≠ c := fun y hy => hstem y (List.mem_cons_of_mem _ hy)
      have hf : st.length + 1 ≤ f := by
        simp only [List.length_cons] at hfuel
        omega
      have hrec := ih f (x :: acc) rest hst hf
      simp only [List.cons_append, jsSplitFuel, isPref, hbe, Bool.false_and,
        Bool.false_eq_true, if_false, List.append_eq]
      rw [hrec]
      simp [List.reverse_cons, List.append_assoc]

/-- The path-up-to-first-dot of `stem ++ ".html"` is `stem` when the stem is
dot-free. -/
theorem jsSplit_head_stem (stem : String) (h : ∀ x ∈ stem.data, x ≠ '.') :
    (jsSplit (stem ++ ".html") ".").headD "" = stem := by
  have hdata : (stem ++ ".html").data = stem.data ++ '.' :: "html".data := by
    rw [String.data_append]
  unfold jsSplit
  rw [hdata]
  have hlen : stem.data.length + 1 ≤ (stem.data ++ '.' :: "html".data).length := by
    simp
  have hhead := jsSplitFuel_head stem.data ((stem.data ++ '.' :: "html".data).length)
    [] "html".data h hlen
  rcases hsegs : jsSplitFuel ['.'] ((stem.data ++ '.' :: "html".data).length)
      (stem.data ++ '.' :: "html".data) [] with _ | ⟨seg, segs⟩
  · exact absurd hsegs (jsSplitFuel_ne_nil _ _ _ _)
  · rw [hsegs] at hhead
    simp only [List.headD_cons, List.reverse_nil, List.nil_append] at hhead
    subst hhead
    rfl

/-- Applying `updateFirstEntry` with functions that agree on the matched entry
gives the same result. -/
theorem updateFirstEntry_congr (files : List String) (fileName : String)
    (f g : String → String) (h : f fileName = g fileName) :
    updateFirstEntry files fileName f = updateFirstEntry files fileName g := by
  induction files with
  | nil => rfl
  | cons x t ih =>
    by_cases hx : x = fileName
    · subst hx; simp [updateFirstEntry, h]
    · simp [updateFirstEntry, hx, ih]

/-- **C8** (amended). For every page accepted by directory conversion whose
path is `stem ++ ".html"` with a dot-free stem: the file is moved from
`stem.html` to `stem/index.html`, and — provided the rewritten path
`stem ++ "/index.html"` does not contain `"index/index.html"`, i.e. the stem
does not end in `index` — the pending-files entry for the old path is
rewritten to the new path. A file named `index.html` is never converted.
(When the stem ends in `index`, the file is still moved but the second string
replacement reverts the array entry to the old path; see the counterexample.) -/
theorem createDirectory_spec :
    (∀ (allowType disallowType : Option (List String)) (stem : String)
        (files : List String),
      (∀ c ∈ stem.data, c ≠ '.') →
      isAllowedType (getFilePartsExt (stem ++ ".html")) allowType disallowType = true →
      getFilePartsName (stem ++ ".html") ≠ "index" →
      occursIn "index/index.html".data (stem ++ "/index.html").data = false →
      createDirectory allowType disallowType [] [] (stem ++ ".html") files
        = some (stem ++ ".html", stem ++ "/index.html",
            updateFirstEntry files (stem ++ ".html")
              (fun _ => stem ++ "/index.html"))) ∧
    (∀ (allowType disallowType : Option (List String))
        (excludePaths configExcludePaths : List String)
        (p : String) (files : List String),
      getFilePartsName p = "index" →
      createDirectory allowType disallowType excludePaths configExcludePaths p files
        = none) := by
  constructor
  · intro allowType disallowType stem files hdot hallow hname hidx
    have hrep1 : jsReplaceFirstStr (stem ++ ".html") ".html" "/index.html"
        = stem ++ "/index.html" := by
      unfold jsReplaceFirstStr
      rw [show (".html".data : List Char) = '.' :: "html".data from rfl,
        show ((stem ++ ".html").data : List Char)
            = stem.data ++ (('.' :: "html".data) ++ []) from by
              rw [String.data_append]; all_goals rfl,
        jsReplaceFirst_boundary _ stem.data [] hdot]
      show String.mk (stem.data ++ ("/index.html".data ++ [])) = stem ++ "/index.html"
      rw [List.append_nil, ← String.data_append]
    have hrep2 : jsReplaceFirstStr (stem ++ "/index.html") "index/index.html" "index.html"
        = stem ++ "/index.html" := by
      unfold jsReplaceFirstStr
      rw [jsReplaceFirst_of_not_occurs _ hidx]
    have hentry : jsReplaceFirstStr (jsReplaceFirstStr (stem ++ ".html") ".html" "/index.html")
        "index/index.html" "index.html" = stem ++ "/index.html" := by
      rw [hrep1, hrep2]
    unfold createDirectory
    rw [hallow]
    simp only [Bool.not_true, Bool.false_eq_true, if_false]
    rw [if_neg hname]
    simp only [List.nil_append, List.any_nil, Bool.false_eq_true, if_false]
    rw [jsSplit_head_stem stem hdot]
    rw [updateFirstEntry_congr files (stem ++ ".html")
      (fun f => jsReplaceFirstStr (jsReplaceFirstStr f ".html" "/index.html")
        "index/index.html" "index.html")
      (fun _ => stem ++ "/index.html") hentry]
  · intro allowType disallowType excludePaths configExcludePaths p files hname
    unfold createDirectory
    by_cases hallow : isAllowedType (getFilePartsExt p) allowType disallowType
    · rw [hallow]
      simp [hname]
    · simp [hallow]

/-- Witness for `createDirectory_spec` at `dist/about.html`. -/
theorem createDirectory_spec_witness :
    (∀ c ∈ ("dist/about" : String).data, c ≠ '.') ∧
    createDirectory (some [".html"]) none [] [] "dist/about.html"
        ["dist/about.html", "dist/css/app.css"]
      = some ("dist/about.html", "dist/about/index.html",
          ["dist/about/index.html", "dist/css/app.css"]) := by
  refine ⟨by decide, ?_⟩
  exact createDirectory_spec.1 (some [".html"]) none "dist/about"
    ["dist/about.html", "dist/css/app.css"] (by decide) (by decide) (by decide) (by decide)

/-! ## Document serialization (`Util.setSrc`, full-document branch) -/

/-- The JSDOM document handle as `setSrc` observes it: whether the parsed
input had a doctype, the `innerHTML` of `<head>` and `<body>`, and the full
`dom.serialize()` output (doctype and all). -/
structure JsdomDocument where
  doctype : Bool
  headInnerHTML : String
  bodyInnerHTML : String
  serialized : String
  deriving DecidableEq

/-- `Util.setSrc({dom})` for a parsed document (util.js lines 614-630): a full
document — the parse found a doctype — is re-serialized whole; otherwise only
`document.head.innerHTML` followed by `document.body.innerHTML` is emitted. -/
def setSrc (dom : JsdomDocument) : String :=
  if dom.doctype then dom.serialized
  else dom.headInnerHTML ++ dom.bodyInnerHTML

/-- **C9**. Serialization re-emits the full document (doctype and all) exactly
when the parsed input had a doctype; otherwise it emits exactly the
concatenation of the head content and the body content — character for
character, so a fragment never gains a synthetic `<html>` wrapper. -/
theorem setSrc_policy (dom : JsdomDocument) :
    (dom.doctype = true → setSrc dom = dom.serialized) ∧
    (dom.doctype = false →
      setSrc dom = dom.headInnerHTML ++ dom.bodyInnerHTML ∧
      (setSrc dom).length = dom.headInnerHTML.length + dom.bodyInnerHTML.length) := by
  constructor
  · intro h; simp [setSrc, h]
  · intro h
    refine ⟨by simp [setSrc, h], ?_⟩
    simp [setSrc, h, String.length_append]

/-- Witness for `setSrc_policy` on a fragment (no doctype). -/
theorem setSrc_policy_witness :
    (JsdomDocument.mk false "<title>t</title>" "<div>x</div>" "").doctype = false ∧
    setSrc (JsdomDocument.mk false "<title>t</title>" "<div>x</div>" "")
      = "<title>t</title><div>x</div>" := by
  refine ⟨rfl, ?_⟩
  exact ((setSrc_policy (JsdomDocument.mk false "<title>t</title>" "<div>x</div>" "")).2 rfl).1

/-! ## Include resolution entry (`ReplaceInclude.init`) -/

/-- In JS, `document.querySelectorAll(...)` returns a NodeList *object*, which
is always truthy — even when it holds zero elements. The guard
`if (!includeItems) return;` in `ReplaceInclude.init` therefore never fires. -/
def nodeListIsTruthy {α : Type} (_items : List α) : Bool := true

/-- `ReplaceInclude.init` (replace-include.js lines 51-88) specialized to a
document with no include markers: the source is parsed, the (empty) marker
list is iterated — a no-op — and `this.file.src` is then *reassigned* to the
re-serialization of the parsed document (`Util.setSrc({dom})`), modelled by
the abstract Document Model round trip `reserialize`. -/
def replaceIncludeInitNoMarkers (reserialize : String → String) (src : String) : String :=
  if !(nodeListIsTruthy ([] : List Unit)) then src
  else reserialize src

/-- **C7** (bug evaluation). With zero include markers the early-exit guard
compares a NodeList — always truthy — so it never fires, and the file's source
is unconditionally replaced by the Document Model's re-serialization of its
parse rather than left untouched. The run is a no-op only on sources that are
already fixed points of that round trip (jsdom normalizes attribute quoting,
tag case, doctype spelling, …), not unconditionally as claimed. -/
theorem replaceIncludeInit_reserializes (reserialize : String → String) (src : String) :
    replaceIncludeInitNoMarkers reserialize src = reserialize src := rfl

end Cook
